import Mathlib

/-!
Verification of the Hybrid container codec of `src/client/hybrid_converter.py`
(repository DiscordImageSync).

The shallow embedding below models:
  * Python byte strings as `List Nat` (each entry a byte value),
  * Python text strings as `List Char`,
  * the file system interactions of the codec as pure functions: a source
    file is its byte content, a function that can fail (an exception caught
    and converted to `False`/`None` in the source) returns `Option`,
  * `datetime.utcnow().strftime(...)` as an explicit timestamp parameter.
-/

set_option autoImplicit false

/-! ## Python string primitives -/

/-- Whitespace characters stripped by Python `str.strip()` (Unicode
whitespace as used by CPython for `str.strip` with no argument). -/
def pyWhitespace : List Char :=
  [Char.ofNat 0x09, Char.ofNat 0x0A, Char.ofNat 0x0B, Char.ofNat 0x0C,
   Char.ofNat 0x0D, Char.ofNat 0x1C, Char.ofNat 0x1D, Char.ofNat 0x1E,
   Char.ofNat 0x1F, Char.ofNat 0x20, Char.ofNat 0x85, Char.ofNat 0xA0,
   Char.ofNat 0x1680, Char.ofNat 0x2000, Char.ofNat 0x2001, Char.ofNat 0x2002,
   Char.ofNat 0x2003, Char.ofNat 0x2004, Char.ofNat 0x2005, Char.ofNat 0x2006,
   Char.ofNat 0x2007, Char.ofNat 0x2008, Char.ofNat 0x2009, Char.ofNat 0x200A,
   Char.ofNat 0x2028, Char.ofNat 0x2029, Char.ofNat 0x202F, Char.ofNat 0x205F,
   Char.ofNat 0x3000]

def isPySpace (c : Char) : Bool := pyWhitespace.contains c

/-- Python `str.strip()`: remove leading and trailing whitespace. -/
def pyStrip (cs : List Char) : List Char :=
  ((cs.dropWhile isPySpace).reverse.dropWhile isPySpace).reverse

/-- Prepend a character to the first piece of a split result. -/
def consHead (c : Char) : List (List Char) → List (List Char)
  | [] => [[c]]
  | l :: ls => (c :: l) :: ls

/-- Python `str.split(sep)` for the one-character separator `'\n'`,
keeping empty pieces (`"".split('\n') == [""]`). -/
def splitNl : List Char → List (List Char)
  | [] => [[]]
  | c :: cs =>
    if c = '\n' then [] :: splitNl cs else consHead c (splitNl cs)

/-- Python `"\n".join(lines)`. -/
def joinNl : List (List Char) → List Char
  | [] => []
  | [l] => l
  | l :: ls => l ++ '\n' :: joinNl ls

/-- Python `line.split(':', 1)` restricted to the case used by the source:
`none` when the line holds no `':'`, otherwise the part before the first
`':'` and everything after it. -/
def breakColon : List Char → Option (List Char × List Char)
  | [] => none
  | c :: cs =>
    if c = ':' then some ([], cs)
    else (breakColon cs).map (fun kv => (c :: kv.1, kv.2))

/-- Python `str(n)` for a non-negative integer: decimal digits,
fuel-based so that it is structural and reduces in the kernel. -/
def natDigitsAux : Nat → Nat → List Char → List Char
  | 0, _, acc => acc
  | fuel + 1, n, acc =>
    let d := Char.ofNat (48 + n % 10)
    if n < 10 then d :: acc else natDigitsAux fuel (n / 10) (d :: acc)

def natDigits (n : Nat) : List Char := natDigitsAux (n + 1) n []

/-! ## Python dict with string keys

The header map of the source is a Python `dict`; only insertion
(`d[k] = v`, which overwrites an existing binding) and
`d.get(k, default)` are used. -/

def setKV : List (List Char × List Char) → List Char → List Char →
    List (List Char × List Char)
  | [], k, v => [(k, v)]
  | (k', v') :: d, k, v =>
    if k' = k then (k, v) :: d else (k', v') :: setKV d k v

def dictGet : List (List Char × List Char) → List Char → List Char → List Char
  | [], _, dflt => dflt
  | (k', v) :: d, k, dflt => if k' = k then v else dictGet d k dflt

def dictHasKey (d : List (List Char × List Char)) (k : List Char) : Bool :=
  d.any (fun e => e.1 = k)

/-! ## UTF-8

Python `str.encode('utf-8')` and `bytes.decode('utf-8')` (strict mode:
overlong forms, surrogates and out-of-range values are decode errors,
which the source converts to a `None` result). -/

def utf8EncodeChar (c : Char) : List Nat :=
  let v := c.toNat
  if v < 0x80 then [v]
  else if v < 0x800 then [0xC0 + v / 0x40, 0x80 + v % 0x40]
  else if v < 0x10000 then
    [0xE0 + v / 0x1000, 0x80 + (v / 0x40) % 0x40, 0x80 + v % 0x40]
  else
    [0xF0 + v / 0x40000, 0x80 + (v / 0x1000) % 0x40,
     0x80 + (v / 0x40) % 0x40, 0x80 + v % 0x40]

def utf8Encode : List Char → List Nat
  | [] => []
  | c :: cs => utf8EncodeChar c ++ utf8Encode cs

def isUtf8Cont (b : Nat) : Prop := 0x80 ≤ b ∧ b < 0xC0

instance (b : Nat) : Decidable (isUtf8Cont b) := by
  unfold isUtf8Cont; infer_instance

def utf8Val2 (b b2 : Nat) : Nat := (b - 0xC0) * 0x40 + (b2 - 0x80)

def utf8Val3 (b b2 b3 : Nat) : Nat :=
  (b - 0xE0) * 0x1000 + (b2 - 0x80) * 0x40 + (b3 - 0x80)

def utf8Val4 (b b2 b3 b4 : Nat) : Nat :=
  (b - 0xF0) * 0x40000 + (b2 - 0x80) * 0x1000 + (b3 - 0x80) * 0x40 +
    (b4 - 0x80)

/-- Decode one UTF-8 scalar value from the front of a byte list,
returning the character and the remaining bytes; `none` on any invalid
sequence (stray or missing continuation byte, overlong form, surrogate,
value above `0x10FFFF`). -/
def utf8DecodeOne : List Nat → Option (Char × List Nat)
  | [] => none
  | b :: rest =>
    if b < 0x80 then some (Char.ofNat b, rest)
    else if b < 0xC2 then none
    else if b < 0xE0 then
      if 1 ≤ rest.length ∧ isUtf8Cont (rest.getD 0 0) then
        some (Char.ofNat (utf8Val2 b (rest.getD 0 0)), rest.drop 1)
      else none
    else if b < 0xF0 then
      if 2 ≤ rest.length ∧ isUtf8Cont (rest.getD 0 0) ∧
          isUtf8Cont (rest.getD 1 0) ∧
          0x800 ≤ utf8Val3 b (rest.getD 0 0) (rest.getD 1 0) ∧
          (utf8Val3 b (rest.getD 0 0) (rest.getD 1 0) < 0xD800 ∨
           0xE000 ≤ utf8Val3 b (rest.getD 0 0) (rest.getD 1 0)) then
        some (Char.ofNat (utf8Val3 b (rest.getD 0 0) (rest.getD 1 0)),
          rest.drop 2)
      else none
    else if b < 0xF5 then
      if 3 ≤ rest.length ∧ isUtf8Cont (rest.getD 0 0) ∧
          isUtf8Cont (rest.getD 1 0) ∧ isUtf8Cont (rest.getD 2 0) ∧
          0x10000 ≤ utf8Val4 b (rest.getD 0 0) (rest.getD 1 0) (rest.getD 2 0) ∧
          utf8Val4 b (rest.getD 0 0) (rest.getD 1 0) (rest.getD 2 0) <
            0x110000 then
        some (Char.ofNat
          (utf8Val4 b (rest.getD 0 0) (rest.getD 1 0) (rest.getD 2 0)),
          rest.drop 3)
      else none
    else none

/-- Decoding loop; the fuel argument makes the recursion structural
(each step consumes at least one byte, so `bs.length` fuel is enough). -/
def utf8DecodeLoop : Nat → List Nat → Option (List Char)
  | 0, bs => if bs.isEmpty then some [] else none
  | fuel + 1, bs =>
    if bs.isEmpty then some []
    else
      match utf8DecodeOne bs with
      | none => none
      | some cr => (utf8DecodeLoop fuel cr.2).map (fun cs => cr.1 :: cs)

def utf8Decode (bs : List Nat) : Option (List Char) :=
  utf8DecodeLoop bs.length bs

/-- Python `bytes.rstrip(b'\x00')`. -/
def rstripZeros (bs : List Nat) : List Nat :=
  (bs.reverse.dropWhile (fun b => b == 0)).reverse

/-! ## SHA-256

Model of `hashlib.sha256(...).hexdigest()`: the full SHA-256 algorithm
over a byte list, producing the 64-character lowercase hexadecimal
digest.  All word arithmetic is `Nat` reduced modulo `2 ^ 32`.  The
source feeds the hash in 4096-byte chunks (`calculate_sha256`) or in one
call (`extract_binary_from_hybrid`); incremental `update` calls hash the
concatenation of the chunks, so both are the digest of the whole byte
content and are modelled by the single function `sha256hex`. -/

def w32 (n : Nat) : Nat := n % 4294967296

def rotr (k x : Nat) : Nat := w32 ((x >>> k) ||| (x <<< (32 - k)))

def shaCh (e f g : Nat) : Nat := (e &&& f) ^^^ ((e ^^^ 0xFFFFFFFF) &&& g)

def shaMaj (a b c : Nat) : Nat := (a &&& b) ^^^ (a &&& c) ^^^ (b &&& c)

def bigSigma0 (x : Nat) : Nat := rotr 2 x ^^^ rotr 13 x ^^^ rotr 22 x

def bigSigma1 (x : Nat) : Nat := rotr 6 x ^^^ rotr 11 x ^^^ rotr 25 x

def smallSigma0 (x : Nat) : Nat := rotr 7 x ^^^ rotr 18 x ^^^ (x >>> 3)

def smallSigma1 (x : Nat) : Nat := rotr 17 x ^^^ rotr 19 x ^^^ (x >>> 10)

def sha256K : List Nat :=
  [1116352408, 1899447441, 3049323471,
   3921009573, 961987163, 1508970993,
   2453635748, 2870763221, 3624381080,
   310598401, 607225278, 1426881987,
   1925078388, 2162078206, 2614888103,
   3248222580, 3835390401, 4022224774,
   264347078, 604807628, 770255983,
   1249150122, 1555081692, 1996064986,
   2554220882, 2821834349, 2952996808,
   3210313671, 3336571891, 3584528711,
   113926993, 338241895, 666307205,
   773529912, 1294757372, 1396182291,
   1695183700, 1986661051, 2177026350,
   2456956037, 2730485921, 2820302411,
   3259730800, 3345764771, 3516065817,
   3600352804, 4094571909, 275423344,
   430227734, 506948616, 659060556,
   883997877, 958139571, 1322822218,
   1537002063, 1747873779, 1955562222,
   2024104815, 2227730452, 2361852424,
   2428436474, 2756734187, 3204031479,
   3329325298]

/-- SHA-256 padding: append `0x80`, zero bytes to reach 56 mod 64, then
the bit length as 8 big-endian bytes. -/
def padMessage (msg : List Nat) : List Nat :=
  let len := msg.length
  let bits := len * 8
  msg ++ 0x80 ::
    (List.replicate ((119 - len % 64) % 64) 0 ++
     [(bits >>> 56) % 256, (bits >>> 48) % 256, (bits >>> 40) % 256,
      (bits >>> 32) % 256, (bits >>> 24) % 256, (bits >>> 16) % 256,
      (bits >>> 8) % 256, bits % 256])

def chunkAux : Nat → List Nat → List (List Nat)
  | 0, _ => []
  | _, [] => []
  | fuel + 1, bs => bs.take 64 :: chunkAux fuel (bs.drop 64)

def chunk64 (bs : List Nat) : List (List Nat) := chunkAux bs.length bs

/-- Big-endian 4-byte words from a byte list. -/
def bytesToWords : List Nat → List Nat
  | b0 :: b1 :: b2 :: b3 :: rest =>
    (((b0 * 256 + b1) * 256 + b2) * 256 + b3) :: bytesToWords rest
  | _ => []

/-- Extend the 16 message words to 64 schedule words. -/
def extendW : Nat → List Nat → List Nat
  | 0, w => w
  | fuel + 1, w =>
    let i := w.length
    let x := w32 (w.getD (i - 16) 0 + smallSigma0 (w.getD (i - 15) 0) +
      w.getD (i - 7) 0 + smallSigma1 (w.getD (i - 2) 0))
    extendW fuel (w ++ [x])

abbrev Sha256State := Nat × Nat × Nat × Nat × Nat × Nat × Nat × Nat

def sha256Init : Sha256State :=
  (1779033703, 3144134277, 1013904242, 2773480762,
   1359893119, 2600822924, 528734635, 1541459225)

def sha256Round (st : Sha256State) (kw : Nat × Nat) : Sha256State :=
  let (a, b, c, d, e, f, g, h) := st
  let t1 := w32 (h + bigSigma1 e + shaCh e f g + kw.1 + kw.2)
  let t2 := w32 (bigSigma0 a + shaMaj a b c)
  (w32 (t1 + t2), a, b, c, w32 (d + t1), e, f, g)

def sha256Compress (st : Sha256State) (block : List Nat) : Sha256State :=
  let w := extendW 48 (bytesToWords block)
  let (a0, b0, c0, d0, e0, f0, g0, h0) := st
  let (a, b, c, d, e, f, g, h) := (sha256K.zip w).foldl sha256Round st
  (w32 (a0 + a), w32 (b0 + b), w32 (c0 + c), w32 (d0 + d),
   w32 (e0 + e), w32 (f0 + f), w32 (g0 + g), w32 (h0 + h))

/-- Big-endian bytes of each 32-bit word. -/
def wordsToBytes : List Nat → List Nat
  | [] => []
  | w :: ws =>
    (w >>> 24) % 256 :: (w >>> 16) % 256 :: (w >>> 8) % 256 :: w % 256 ::
      wordsToBytes ws

def sha256Bytes (msg : List Nat) : List Nat :=
  match (chunk64 (padMessage msg)).foldl sha256Compress sha256Init with
  | (a, b, c, d, e, f, g, h) => wordsToBytes [a, b, c, d, e, f, g, h]

def lowerHexAlphabet : List Char :=
  (List.range 10).map (fun i => Char.ofNat (48 + i)) ++
    (List.range 6).map (fun i => Char.ofNat (97 + i))

def hexChar (n : Nat) : Char := lowerHexAlphabet.getD n '0'

def toHex : List Nat → List Char
  | [] => []
  | b :: bs => hexChar (b / 16) :: hexChar (b % 16) :: toHex bs

/-- `hashlib.sha256(msg).hexdigest()` as a list of characters. -/
def sha256hex (msg : List Nat) : List Char := toHex (sha256Bytes msg)

/-! ## The Hybrid container codec (`src/client/hybrid_converter.py`) -/

def HYBRID_HEADER_SIZE : Nat := 200

def MAX_FILE_SIZE_MB : Nat := 10

def MIN_FILE_SIZE : Nat := HYBRID_HEADER_SIZE

/-- The maximum-size test of `validate_file_size` is
`file_size * SIZE_MARGIN > max_size_bytes` with `SIZE_MARGIN = 1.02`, an
IEEE double in the source.  It is modelled exactly, scaled by 50 to stay
in `Nat` (`1.02 = 51 / 50`).  The double-precision comparison agrees
with the exact rational one at every integer size: the exact product
`file_size * 51 / 50` is a multiple of `1 / 50` and is never equal to
the integer `max_size_bytes`, so it differs from it by at least `0.02`,
far above the rounding error of the double computation. -/
def sizeExceedsMargin (file_size max_size_bytes : Nat) : Bool :=
  max_size_bytes * 50 < file_size * 51

/-- `validate_file_size`: the argument is the result of
`os.path.getsize` (`none` when obtaining the size raises, which the
source catches).  Returns the `(bool, message)` pair of the source; the
dynamic exception text appended to the error message is omitted. -/
def validate_file_size (size : Option Nat) : Bool × String :=
  match size with
  | none => (false, "ファイルサイズ取得エラー")
  | some file_size =>
    if file_size < MIN_FILE_SIZE then
      (false, "規定サイズ以下のファイルは共有されません")
    else
      let max_size_bytes := MAX_FILE_SIZE_MB * 1024 * 1024
      if sizeExceedsMargin file_size max_size_bytes then
        (false, "ファイルサイズが上限（10MB + 2%マージン）を超えています")
      else
        (true, "")

/-- The six header lines built by `create_hybrid_header`; the timestamp
(`datetime.utcnow().strftime("%Y-%m-%dT%H:%M:%SZ")` in the source) is an
explicit parameter. -/
def header_lines (sha256_hash relative_path : List Char) (original_size : Nat)
    (timestamp : List Char) : List (List Char) :=
  ["HYBRID-HEADER-V1".data,
   "SHA256:".data ++ sha256_hash,
   "Path:".data ++ relative_path,
   "Size:".data ++ natDigits original_size,
   "Time:".data ++ timestamp,
   "Offset:".data ++ natDigits HYBRID_HEADER_SIZE]

def header_text (sha256_hash relative_path : List Char) (original_size : Nat)
    (timestamp : List Char) : List Char :=
  joinNl (header_lines sha256_hash relative_path original_size timestamp)

/-- `create_hybrid_header`: `none` models the raised `ValueError`
(header overflow). -/
def create_hybrid_header (sha256_hash relative_path : List Char)
    (original_size : Nat) (timestamp : List Char) : Option (List Nat) :=
  if HYBRID_HEADER_SIZE ≤
      (utf8Encode (header_text sha256_hash relative_path original_size
        timestamp)).length then none
  else
    some (utf8Encode (header_text sha256_hash relative_path original_size
        timestamp) ++
      List.replicate (HYBRID_HEADER_SIZE -
        (utf8Encode (header_text sha256_hash relative_path original_size
          timestamp)).length) 0)

/-- `convert_to_hybrid`: the input file is its byte content `input`, the
relative path (computed in the source from the file name or
`os.path.relpath`) is passed directly, and the produced container bytes
stand for the written output file.  `none` models every `False` return. -/
def convert_to_hybrid (input : List Nat) (relative_path timestamp : List Char) :
    Option (List Nat) :=
  if (validate_file_size (some input.length)).1 then
    match create_hybrid_header (sha256hex input) relative_path input.length
        timestamp with
    | none => none
    | some header_bytes => some (header_bytes ++ input)
  else none

/-- Loop body of `parse_hybrid_header`:
`if ':' in line: key, value = line.split(':', 1)` followed by
`header_info[key.strip()] = value.strip()`. -/
def lineField (line : List Char) : Option (List Char × List Char) :=
  match breakColon line with
  | none => none
  | some kv => some (pyStrip kv.1, pyStrip kv.2)

def applyLine (info : List (List Char × List Char)) (line : List Char) :
    List (List Char × List Char) :=
  match lineField line with
  | none => info
  | some kv => setKV info kv.1 kv.2

def buildHeaderInfo (text : List Char) : List (List Char × List Char) :=
  (splitNl text).foldl applyLine []

/-- `parse_hybrid_header` on the container bytes `dat`; `none` models
the `None` returns (short header, or a decode exception). -/
def parse_hybrid_header (dat : List Nat) :
    Option (List (List Char × List Char)) :=
  if (dat.take HYBRID_HEADER_SIZE).length < HYBRID_HEADER_SIZE then none
  else
    match utf8Decode (rstripZeros (dat.take HYBRID_HEADER_SIZE)) with
    | none => none
    | some text => some (buildHeaderInfo text)

/-- `extract_binary_from_hybrid`: returns the payload bytes written to
the output file, `none` for every `False` return (in particular nothing
is written on failure).  Note `if not header_info` in the source is
falsy both for `None` and for an empty dict. -/
def extract_binary_from_hybrid (dat : List Nat) : Option (List Nat) :=
  match parse_hybrid_header dat with
  | none => none
  | some header_info =>
    if header_info.isEmpty then none
    else
      if sha256hex (dat.drop HYBRID_HEADER_SIZE) ≠
          dictGet header_info "SHA256".data [] then none
      else some (dat.drop HYBRID_HEADER_SIZE)

/-- Modelled from the spec (§4.3 decode): the per-line rule in the
spec's words — "for every line containing a `:` separator splits on the
first occurrence into key and value, trimming surrounding whitespace
from both; lines without `:` are ignored".  Used only to compare with
the decoder translated from the source. -/
def specLineField (line : List Char) : Option (List Char × List Char) :=
  if line.contains ':' then
    some (pyStrip (line.takeWhile (fun c => !(c == ':'))),
      pyStrip (line.dropWhile (fun c => !(c == ':'))).tail)
  else none

/-- Modelled from the spec (§4.3 decode): the mapping produced by
splitting the decoded text on newlines and applying `specLineField` to
each line. -/
def specApplyLine (info : List (List Char × List Char)) (line : List Char) :
    List (List Char × List Char) :=
  match specLineField line with
  | none => info
  | some kv => setKV info kv.1 kv.2

def specHeaderMap (text : List Char) : List (List Char × List Char) :=
  (splitNl text).foldl specApplyLine []

theorem char_valid_nat (c : Char) :
    c.toNat < 0xD800 ∨ (0xE000 ≤ c.toNat ∧ c.toNat < 0x110000) := by
  rcases c.valid with h | h
  · left; exact_mod_cast h
  · right; exact ⟨by exact_mod_cast h.1, by exact_mod_cast h.2⟩

theorem utf8EncodeChar_length_pos (c : Char) : 1 ≤ (utf8EncodeChar c).length := by
  unfold utf8EncodeChar
  dsimp only
  split_ifs <;> simp

theorem utf8DecodeOne_encodeChar (c : Char) (bs : List Nat) :
    utf8DecodeOne (utf8EncodeChar c ++ bs) = some (c, bs) := by
  have hv := char_valid_nat c
  have hc := Char.ofNat_toNat c
  by_cases h1 : c.toNat < 0x80
  · have he : utf8EncodeChar c = [c.toNat] := by
      unfold utf8EncodeChar; rw [if_pos h1]
    rw [he, List.cons_append, List.nil_append, utf8DecodeOne, if_pos h1, hc]
  · by_cases h2 : c.toNat < 0x800
    · have he : utf8EncodeChar c = [0xC0 + c.toNat / 0x40, 0x80 + c.toNat % 0x40] := by
        unfold utf8EncodeChar; rw [if_neg h1, if_pos h2]
      rw [he]
      show utf8DecodeOne ((0xC0 + c.toNat / 0x40) :: (0x80 + c.toNat % 0x40) :: bs) = _
      rw [utf8DecodeOne, if_neg (by omega), if_neg (by omega), if_pos (by omega)]
      simp only [List.getD_cons_zero, List.length_cons, List.drop_succ_cons,
        List.drop_zero]
      rw [if_pos ⟨by omega, by exact ⟨by omega, by omega⟩⟩]
      have hval : utf8Val2 (0xC0 + c.toNat / 0x40) (0x80 + c.toNat % 0x40) = c.toNat := by
        unfold utf8Val2; omega
      rw [hval, hc]
    · by_cases h3 : c.toNat < 0x10000
      · have he : utf8EncodeChar c =
            [0xE0 + c.toNat / 0x1000, 0x80 + (c.toNat / 0x40) % 0x40,
             0x80 + c.toNat % 0x40] := by
          unfold utf8EncodeChar; rw [if_neg h1, if_neg h2, if_pos h3]
        rw [he]
        show utf8DecodeOne ((0xE0 + c.toNat / 0x1000) ::
          (0x80 + (c.toNat / 0x40) % 0x40) :: (0x80 + c.toNat % 0x40) :: bs) = _
        rw [utf8DecodeOne, if_neg (by omega), if_neg (by omega),
          if_neg (by omega), if_pos (by omega)]
        simp only [List.getD_cons_zero, List.getD_cons_succ, List.length_cons,
          List.drop_succ_cons, List.drop_zero]
        have hval : utf8Val3 (0xE0 + c.toNat / 0x1000)
            (0x80 + (c.toNat / 0x40) % 0x40) (0x80 + c.toNat % 0x40) = c.toNat := by
          unfold utf8Val3; omega
        rw [if_pos ⟨by omega, ⟨by omega, by omega⟩, ⟨by omega, by omega⟩,
          by rw [hval]; omega, by rw [hval]; omega⟩]
        rw [hval, hc]
      · have h4 : c.toNat < 0x110000 := by omega
        have he : utf8EncodeChar c =
            [0xF0 + c.toNat / 0x40000, 0x80 + (c.toNat / 0x1000) % 0x40,
             0x80 + (c.toNat / 0x40) % 0x40, 0x80 + c.toNat % 0x40] := by
          unfold utf8EncodeChar; rw [if_neg h1, if_neg h2, if_neg h3]
        rw [he]
        show utf8DecodeOne ((0xF0 + c.toNat / 0x40000) ::
          (0x80 + (c.toNat / 0x1000) % 0x40) :: (0x80 + (c.toNat / 0x40) % 0x40) ::
          (0x80 + c.toNat % 0x40) :: bs) = _
        rw [utf8DecodeOne, if_neg (by omega), if_neg (by omega),
          if_neg (by omega), if_neg (by omega), if_pos (by omega)]
        simp only [List.getD_cons_zero, List.getD_cons_succ, List.length_cons,
          List.drop_succ_cons, List.drop_zero]
        have hval : utf8Val4 (0xF0 + c.toNat / 0x40000)
            (0x80 + (c.toNat / 0x1000) % 0x40) (0x80 + (c.toNat / 0x40) % 0x40)
            (0x80 + c.toNat % 0x40) = c.toNat := by
          unfold utf8Val4; omega
        rw [if_pos ⟨by omega, ⟨by omega, by omega⟩, ⟨by omega, by omega⟩,
          ⟨by omega, by omega⟩, by rw [hval]; omega, by rw [hval]; omega⟩]
        rw [hval, hc]

theorem utf8DecodeLoop_nil (fuel : Nat) : utf8DecodeLoop fuel [] = some [] := by
  cases fuel <;> rfl

theorem utf8DecodeLoop_encode (cs : List Char) : ∀ fuel : Nat,
    (utf8Encode cs).length ≤ fuel →
    utf8DecodeLoop fuel (utf8Encode cs) = some cs := by
  induction cs with
  | nil => intro fuel _; exact utf8DecodeLoop_nil fuel
  | cons c cs ih =>
    intro fuel hfuel
    have hlen : 1 ≤ (utf8EncodeChar c).length := utf8EncodeChar_length_pos c
    have hne : utf8Encode (c :: cs) = utf8EncodeChar c ++ utf8Encode cs := rfl
    rw [hne] at hfuel ⊢
    rw [List.length_append] at hfuel
    cases fuel with
    | zero => omega
    | succ f =>
      rw [utf8DecodeLoop]
      have hemp : (utf8EncodeChar c ++ utf8Encode cs).isEmpty = false := by
        rcases hx : utf8EncodeChar c with _ | ⟨b, bs⟩
        · rw [hx] at hlen; simp at hlen
        · rfl
      rw [hemp]
      simp only [Bool.false_eq_true, if_false]
      rw [utf8DecodeOne_encodeChar c (utf8Encode cs)]
      show (utf8DecodeLoop f (utf8Encode cs)).map (fun l => c :: l) = some (c :: cs)
      rw [ih f (by omega)]
      rfl

theorem utf8Decode_encode (cs : List Char) :
    utf8Decode (utf8Encode cs) = some cs :=
  utf8DecodeLoop_encode cs (utf8Encode cs).length le_rfl

/-! ## Byte and string utility lemmas -/

theorem dropWhile_zero_replicate (k : Nat) (ys : List Nat) :
    (List.replicate k 0 ++ ys).dropWhile (fun b => b == 0) =
      ys.dropWhile (fun b => b == 0) := by
  induction k with
  | zero => rfl
  | succ n ih =>
    rw [List.replicate_succ, List.cons_append,
      List.dropWhile_cons_of_pos (by simp), ih]

theorem rstripZeros_append_replicate (xs : List Nat) (k : Nat) :
    rstripZeros (xs ++ List.replicate k 0) = rstripZeros xs := by
  unfold rstripZeros
  rw [List.reverse_append, List.reverse_replicate, dropWhile_zero_replicate]

theorem rstripZeros_last_ne (xs : List Nat) (c : Nat) (h : c ≠ 0) :
    rstripZeros (xs ++ [c]) = xs ++ [c] := by
  unfold rstripZeros
  rw [List.reverse_append]
  rw [show ([c] : List Nat).reverse ++ xs.reverse = c :: xs.reverse by simp]
  rw [List.dropWhile_cons_of_neg (by simpa using h)]
  simp

theorem utf8Encode_append (xs ys : List Char) :
    utf8Encode (xs ++ ys) = utf8Encode xs ++ utf8Encode ys := by
  induction xs with
  | nil => rfl
  | cons c cs ih =>
    rw [List.cons_append, utf8Encode, utf8Encode, ih, List.append_assoc]

theorem splitNl_no_newline (l : List Char) (h : '\n' ∉ l) : splitNl l = [l] := by
  induction l with
  | nil => rfl
  | cons c cs ih =>
    rw [splitNl, if_neg (by intro hc; exact h (hc ▸ List.mem_cons_self c cs)),
      ih (fun hm => h (List.mem_cons_of_mem c hm))]
    rfl

theorem splitNl_append_newline (l t : List Char) (h : '\n' ∉ l) :
    splitNl (l ++ '\n' :: t) = l :: splitNl t := by
  induction l with
  | nil => rw [List.nil_append, splitNl, if_pos rfl]
  | cons c cs ih =>
    rw [List.cons_append, splitNl,
      if_neg (by intro hc; exact h (hc ▸ List.mem_cons_self c cs)),
      ih (fun hm => h (List.mem_cons_of_mem c hm))]
    rfl

theorem breakColon_not_mem (l : List Char) (h : ':' ∉ l) : breakColon l = none := by
  induction l with
  | nil => rfl
  | cons c cs ih =>
    rw [breakColon, if_neg (by intro hc; exact h (hc ▸ List.mem_cons_self c cs)),
      ih (fun hm => h (List.mem_cons_of_mem c hm))]
    rfl

theorem breakColon_split (k v : List Char) (h : ':' ∉ k) :
    breakColon (k ++ ':' :: v) = some (k, v) := by
  induction k with
  | nil => rw [List.nil_append, breakColon, if_pos rfl]
  | cons c cs ih =>
    rw [List.cons_append, breakColon,
      if_neg (by intro hc; exact h (hc ▸ List.mem_cons_self c cs)),
      ih (fun hm => h (List.mem_cons_of_mem c hm))]
    rfl

theorem dropWhile_head_false (f : Char → Bool) (cs : List Char)
    (h : ∀ c, cs.head? = some c → f c = false) : cs.dropWhile f = cs := by
  cases cs with
  | nil => rfl
  | cons c l => exact List.dropWhile_cons_of_neg (by simp [h c rfl])

theorem pyStrip_eq_self_of_edges (cs : List Char)
    (h1 : ∀ c, cs.head? = some c → isPySpace c = false)
    (h2 : ∀ c, cs.getLast? = some c → isPySpace c = false) :
    pyStrip cs = cs := by
  unfold pyStrip
  rw [dropWhile_head_false isPySpace cs h1]
  rw [dropWhile_head_false isPySpace cs.reverse
    (fun c hc => h2 c (by rwa [← List.head?_reverse]))]
  exact List.reverse_reverse cs

theorem pyStrip_eq_self_of_all (cs : List Char)
    (h : ∀ c ∈ cs, isPySpace c = false) : pyStrip cs = cs := by
  refine pyStrip_eq_self_of_edges cs (fun c hc => ?_) (fun c hc => ?_)
  · exact h c (List.mem_of_mem_head? hc)
  · exact h c (List.mem_of_mem_getLast? hc)

/-! ## Digit and hexadecimal character lemmas -/

def digitChars : List Char :=
  (List.range 10).map (fun i => Char.ofNat (48 + i))

theorem digitChar_mem (n : Nat) (h : n < 10) :
    Char.ofNat (48 + n) ∈ digitChars := by
  interval_cases n <;> decide

theorem natDigitsAux_mem (fuel : Nat) : ∀ n acc,
    (∀ c ∈ acc, c ∈ digitChars) →
    ∀ c ∈ natDigitsAux fuel n acc, c ∈ digitChars := by
  induction fuel with
  | zero => intro n acc hacc c hc; exact hacc c hc
  | succ f ih =>
    intro n acc hacc c hc
    rw [natDigitsAux] at hc
    by_cases hn : n < 10
    · rw [if_pos hn] at hc
      rcases List.mem_cons.mp hc with h | h
      · exact h ▸ (by simpa using digitChar_mem (n % 10) (Nat.mod_lt n (by omega)))
      · exact hacc c h
    · rw [if_neg hn] at hc
      refine ih (n / 10) _ (fun d hd => ?_) c hc
      rcases List.mem_cons.mp hd with h | h
      · exact h ▸ digitChar_mem (n % 10) (Nat.mod_lt n (by omega))
      · exact hacc d h

theorem natDigits_mem (n : Nat) : ∀ c ∈ natDigits n, c ∈ digitChars := by
  intro c hc
  exact natDigitsAux_mem (n + 1) n [] (by intro d hd; cases hd) c hc

theorem digit_not_space : ∀ c ∈ digitChars, isPySpace c = false := by decide

theorem digit_ne_newline : ∀ c ∈ digitChars, c ≠ '\n' := by decide

theorem digit_ne_colon : ∀ c ∈ digitChars, c ≠ ':' := by decide

theorem hex_not_space : ∀ c ∈ lowerHexAlphabet, isPySpace c = false := by decide

theorem hex_ne_newline : ∀ c ∈ lowerHexAlphabet, c ≠ '\n' := by decide

/-! ## SHA-256 digest shape lemmas -/

theorem wordsToBytes_lt (ws : List Nat) : ∀ b ∈ wordsToBytes ws, b < 256 := by
  induction ws with
  | nil => intro b hb; cases hb
  | cons w ws ih =>
    intro b hb
    rw [wordsToBytes] at hb
    rcases List.mem_cons.mp hb with h | hb
    · omega
    rcases List.mem_cons.mp hb with h | hb
    · omega
    rcases List.mem_cons.mp hb with h | hb
    · omega
    rcases List.mem_cons.mp hb with h | hb
    · omega
    · exact ih b hb

theorem sha256Bytes_length (msg : List Nat) : (sha256Bytes msg).length = 32 := by
  unfold sha256Bytes
  rcases (chunk64 (padMessage msg)).foldl sha256Compress sha256Init with
    ⟨a, b, c, d, e, f, g, h⟩
  simp [wordsToBytes]

theorem sha256Bytes_lt (msg : List Nat) : ∀ b ∈ sha256Bytes msg, b < 256 := by
  unfold sha256Bytes
  rcases (chunk64 (padMessage msg)).foldl sha256Compress sha256Init with
    ⟨a, b, c, d, e, f, g, h⟩
  exact wordsToBytes_lt _

theorem toHex_length (bs : List Nat) : (toHex bs).length = 2 * bs.length := by
  induction bs with
  | nil => rfl
  | cons b l ih => rw [toHex]; simp only [List.length_cons, ih]; omega

theorem hexChar_mem (n : Nat) (h : n < 16) : hexChar n ∈ lowerHexAlphabet := by
  interval_cases n <;> decide

theorem toHex_mem (bs : List Nat) (hb : ∀ b ∈ bs, b < 256) :
    ∀ c ∈ toHex bs, c ∈ lowerHexAlphabet := by
  induction bs with
  | nil => intro c hc; cases hc
  | cons b l ih =>
    intro c hc
    rw [toHex] at hc
    have hblt : b < 256 := hb b (List.mem_cons_self b l)
    rcases List.mem_cons.mp hc with h | hc
    · exact h ▸ hexChar_mem (b / 16) (by omega)
    rcases List.mem_cons.mp hc with h | hc
    · exact h ▸ hexChar_mem (b % 16) (by omega)
    · exact ih (fun x hx => hb x (List.mem_cons_of_mem b hx)) c hc

theorem sha256hex_length (msg : List Nat) : (sha256hex msg).length = 64 := by
  unfold sha256hex
  rw [toHex_length, sha256Bytes_length]

theorem sha256hex_mem (msg : List Nat) :
    ∀ c ∈ sha256hex msg, c ∈ lowerHexAlphabet := by
  intro c hc
  exact toHex_mem _ (sha256Bytes_lt msg) c hc

theorem sha256hex_not_space (msg : List Nat) :
    ∀ c ∈ sha256hex msg, isPySpace c = false :=
  fun c hc => hex_not_space c (sha256hex_mem msg c hc)

theorem sha256hex_ne_newline (msg : List Nat) : '\n' ∉ sha256hex msg :=
  fun h => hex_ne_newline '\n' (sha256hex_mem msg '\n' h) rfl

theorem sha256hex_ne_nil (msg : List Nat) : sha256hex msg ≠ [] := by
  intro h
  have := sha256hex_length msg
  rw [h] at this
  exact absurd this (by decide)

/-! ## Header line and map evaluation lemmas -/

theorem lineField_none (l : List Char) (h : ':' ∉ l) : lineField l = none := by
  unfold lineField
  rw [breakColon_not_mem l h]

theorem lineField_split (k v : List Char) (h : ':' ∉ k) :
    lineField (k ++ ':' :: v) = some (pyStrip k, pyStrip v) := by
  unfold lineField
  rw [breakColon_split k v h]

theorem applyLine_none (info : List (List Char × List Char)) (line : List Char)
    (h : lineField line = none) : applyLine info line = info := by
  unfold applyLine
  rw [h]

theorem applyLine_some (info : List (List Char × List Char)) (line k v : List Char)
    (h : lineField line = some (k, v)) : applyLine info line = setKV info k v := by
  unfold applyLine
  rw [h]

theorem not_mem_append_char (c : Char) (xs ys : List Char)
    (h1 : c ∉ xs) (h2 : c ∉ ys) : c ∉ xs ++ ys := by
  intro h
  rcases List.mem_append.mp h with h | h
  · exact h1 h
  · exact h2 h

theorem newline_not_mem_digits (n : Nat) : '\n' ∉ natDigits n := by
  intro h
  exact digit_ne_newline '\n' (natDigits_mem n '\n' h) rfl

theorem pyStrip_digits (n : Nat) : pyStrip (natDigits n) = natDigits n :=
  pyStrip_eq_self_of_all (natDigits n)
    (fun c hc => digit_not_space c (natDigits_mem n c hc))

/-- The decoded header text of well-formed field values splits back into
the six header lines. -/
theorem splitNl_header_text (h r ts : List Char) (n : Nat)
    (hh : '\n' ∉ h) (hr : '\n' ∉ r) (hts : '\n' ∉ ts) :
    splitNl (header_text h r n ts) = header_lines h r n ts := by
  have e : header_text h r n ts =
      "HYBRID-HEADER-V1".data ++ '\n' ::
        (("SHA256:".data ++ h) ++ '\n' ::
          (("Path:".data ++ r) ++ '\n' ::
            (("Size:".data ++ natDigits n) ++ '\n' ::
              (("Time:".data ++ ts) ++ '\n' ::
                ("Offset:".data ++ natDigits HYBRID_HEADER_SIZE))))) := rfl
  rw [e]
  rw [splitNl_append_newline _ _ (by decide)]
  rw [splitNl_append_newline _ _
    (not_mem_append_char '\n' _ h (by decide) hh)]
  rw [splitNl_append_newline _ _
    (not_mem_append_char '\n' _ r (by decide) hr)]
  rw [splitNl_append_newline _ _
    (not_mem_append_char '\n' _ _ (by decide) (newline_not_mem_digits n))]
  rw [splitNl_append_newline _ _
    (not_mem_append_char '\n' _ ts (by decide) hts)]
  rw [splitNl_no_newline _ (by decide)]
  rfl

/-- Folding the decoder over the six header lines yields the expected
five-entry map (the tag line holds no colon and is skipped). -/
theorem buildHeaderInfo_header_text (h r ts : List Char) (n : Nat)
    (hh : '\n' ∉ h) (hr : '\n' ∉ r) (hts : '\n' ∉ ts) :
    buildHeaderInfo (header_text h r n ts) =
      [("SHA256".data, pyStrip h), ("Path".data, pyStrip r),
       ("Size".data, natDigits n), ("Time".data, pyStrip ts),
       ("Offset".data, "200".data)] := by
  unfold buildHeaderInfo
  rw [splitNl_header_text h r ts n hh hr hts]
  have hlines : header_lines h r n ts =
      ["HYBRID-HEADER-V1".data,
       "SHA256".data ++ ':' :: h,
       "Path".data ++ ':' :: r,
       "Size".data ++ ':' :: natDigits n,
       "Time".data ++ ':' :: ts,
       "Offset".data ++ ':' :: natDigits 200] := rfl
  rw [hlines]
  rw [List.foldl_cons,
    applyLine_none [] "HYBRID-HEADER-V1".data (lineField_none _ (by decide))]
  rw [List.foldl_cons,
    applyLine_some _ _ _ _ (lineField_split "SHA256".data h (by decide))]
  rw [List.foldl_cons,
    applyLine_some _ _ _ _ (lineField_split "Path".data r (by decide))]
  rw [List.foldl_cons,
    applyLine_some _ _ _ _ (lineField_split "Size".data (natDigits n) (by decide))]
  rw [List.foldl_cons,
    applyLine_some _ _ _ _ (lineField_split "Time".data ts (by decide))]
  rw [List.foldl_cons,
    applyLine_some _ _ _ _ (lineField_split "Offset".data (natDigits 200) (by decide))]
  rw [List.foldl_nil]
  rw [pyStrip_digits]
  rfl

/-! ## Parsing the padded header -/

theorem shiftLast (a b : List Char) (ch z : Char) :
    a ++ ch :: (b ++ [z]) = (a ++ ch :: b) ++ [z] := by
  rw [show ch :: (b ++ [z]) = (ch :: b) ++ [z] from rfl, List.append_assoc]

/-- The header text always ends in the character `'0'` (from the final
line `Offset:200`). -/
theorem header_text_last (h r ts : List Char) (n : Nat) :
    header_text h r n ts =
      ("HYBRID-HEADER-V1".data ++ '\n' ::
        (("SHA256:".data ++ h) ++ '\n' ::
          (("Path:".data ++ r) ++ '\n' ::
            (("Size:".data ++ natDigits n) ++ '\n' ::
              (("Time:".data ++ ts) ++ '\n' ::
                ("Offset:".data ++ ['2', '0'])))))) ++ ['0'] := by
  have e : header_text h r n ts =
      "HYBRID-HEADER-V1".data ++ '\n' ::
        (("SHA256:".data ++ h) ++ '\n' ::
          (("Path:".data ++ r) ++ '\n' ::
            (("Size:".data ++ natDigits n) ++ '\n' ::
              (("Time:".data ++ ts) ++ '\n' ::
                ("Offset:".data ++ natDigits HYBRID_HEADER_SIZE))))) := rfl
  rw [e]
  rw [show "Offset:".data ++ natDigits HYBRID_HEADER_SIZE =
    ("Offset:".data ++ ['2', '0']) ++ ['0'] from rfl]
  rw [shiftLast, shiftLast, shiftLast, shiftLast, shiftLast]

theorem utf8Encode_header_last (h r ts : List Char) (n : Nat) :
    ∃ xs, utf8Encode (header_text h r n ts) = xs ++ [48] := by
  refine ⟨utf8Encode ("HYBRID-HEADER-V1".data ++ '\n' ::
        (("SHA256:".data ++ h) ++ '\n' ::
          (("Path:".data ++ r) ++ '\n' ::
            (("Size:".data ++ natDigits n) ++ '\n' ::
              (("Time:".data ++ ts) ++ '\n' ::
                ("Offset:".data ++ ['2', '0'])))))), ?_⟩
  rw [header_text_last h r ts n, utf8Encode_append]
  rfl

/-- Parsing a correctly padded header (with anything appended after the
200-byte mark) recovers the five-field map. -/
theorem parse_hybrid_header_padded (h r ts : List Char) (n : Nat)
    (extra : List Nat) (hh : '\n' ∉ h) (hr : '\n' ∉ r) (hts : '\n' ∉ ts)
    (hfit : (utf8Encode (header_text h r n ts)).length < HYBRID_HEADER_SIZE) :
    parse_hybrid_header
      ((utf8Encode (header_text h r n ts) ++
        List.replicate
          (HYBRID_HEADER_SIZE - (utf8Encode (header_text h r n ts)).length) 0) ++
       extra) =
      some [("SHA256".data, pyStrip h), ("Path".data, pyStrip r),
        ("Size".data, natDigits n), ("Time".data, pyStrip ts),
        ("Offset".data, "200".data)] := by
  have hlen : (utf8Encode (header_text h r n ts) ++
      List.replicate
        (HYBRID_HEADER_SIZE - (utf8Encode (header_text h r n ts)).length) 0).length =
      HYBRID_HEADER_SIZE := by
    rw [List.length_append, List.length_replicate]
    omega
  have hstrip : rstripZeros (utf8Encode (header_text h r n ts) ++
      List.replicate
        (HYBRID_HEADER_SIZE - (utf8Encode (header_text h r n ts)).length) 0) =
      utf8Encode (header_text h r n ts) := by
    rw [rstripZeros_append_replicate]
    obtain ⟨xs, hxs⟩ := utf8Encode_header_last h r ts n
    rw [hxs]
    exact rstripZeros_last_ne xs 48 (by omega)
  unfold parse_hybrid_header
  rw [List.take_left' hlen]
  rw [hlen]
  rw [if_neg (by decide)]
  rw [hstrip, utf8Decode_encode]
  show some (buildHeaderInfo (header_text h r n ts)) = _
  rw [buildHeaderInfo_header_text h r ts n hh hr hts]

/-! ## Shape lemmas for the writer and reader -/

theorem create_hybrid_header_eq_some (h r ts : List Char) (n : Nat)
    (hfit : (utf8Encode (header_text h r n ts)).length < HYBRID_HEADER_SIZE) :
    create_hybrid_header h r n ts =
      some (utf8Encode (header_text h r n ts) ++
        List.replicate
          (HYBRID_HEADER_SIZE - (utf8Encode (header_text h r n ts)).length) 0) := by
  unfold create_hybrid_header
  rw [if_neg (by omega)]

theorem validate_file_size_true_of_bounds (s : Nat) (hmin : MIN_FILE_SIZE ≤ s)
    (hmax : s * 51 ≤ MAX_FILE_SIZE_MB * 1024 * 1024 * 50) :
    (validate_file_size (some s)).1 = true := by
  unfold validate_file_size
  dsimp only
  rw [if_neg (by omega)]
  rw [if_neg (by unfold sizeExceedsMargin; simp only [decide_eq_true_eq]; omega)]

theorem convert_to_hybrid_eq_some (p : List Nat) (r ts : List Char)
    (hdr : List Nat)
    (hvalid : (validate_file_size (some p.length)).1 = true)
    (hc : create_hybrid_header (sha256hex p) r p.length ts = some hdr) :
    convert_to_hybrid p r ts = some (hdr ++ p) := by
  unfold convert_to_hybrid
  rw [hvalid, if_pos rfl, hc]

theorem extract_eq_of_parse (dat : List Nat)
    (info : List (List Char × List Char))
    (hp : parse_hybrid_header dat = some info) :
    extract_binary_from_hybrid dat =
      if info.isEmpty then none
      else if sha256hex (dat.drop HYBRID_HEADER_SIZE) ≠
          dictGet info "SHA256".data [] then none
      else some (dat.drop HYBRID_HEADER_SIZE) := by
  unfold extract_binary_from_hybrid
  rw [hp]

def noEdgeSpace (cs : List Char) : Bool :=
  !isPySpace (cs.headD 'a') && !isPySpace (cs.getLastD 'a')

theorem pyStrip_eq_self_of_noEdge (cs : List Char)
    (h : noEdgeSpace cs = true) : pyStrip cs = cs := by
  unfold noEdgeSpace at h
  rw [Bool.and_eq_true, Bool.not_eq_true', Bool.not_eq_true'] at h
  refine pyStrip_eq_self_of_edges cs ?_ ?_
  · intro c hc
    cases cs with
    | nil => cases hc
    | cons a l =>
      have : a = c := by simpa using hc
      rw [← this]
      simpa using h.1
  · intro c hc
    cases cs with
    | nil => cases hc
    | cons a l =>
      have he : (a :: l).getLastD 'a' = c := by
        rw [List.getLastD_eq_getLast?, hc]
        rfl
      rw [← he]
      simpa [List.getLastD_eq_getLast?] using h.2

/-- C9: for every 64-character lowercase hex hash `h`, every size `n`,
and every relative path `r` with no newline and no NUL, not beginning or
ending with whitespace, whose six-line header text encodes in fewer than
200 UTF-8 bytes, decoding the 200-byte buffer produced by
`create_hybrid_header` yields a map sending `SHA256` to `h`, `Path` to
`r`, `Size` to the decimal rendering of `n`, and `Offset` to `"200"`
(the timestamp, a parameter of the model, holds no newline). -/
theorem hybrid_header_roundtrip (h r ts : List Char) (n : Nat)
    (hhlen : h.length = 64) (hhhex : ∀ c ∈ h, c ∈ lowerHexAlphabet)
    (hrn : '\n' ∉ r) (hr0 : Char.ofNat 0 ∉ r)
    (hredge : noEdgeSpace r = true)
    (htsn : '\n' ∉ ts)
    (hfit : (utf8Encode (header_text h r n ts)).length < HYBRID_HEADER_SIZE) :
    ∃ buf, create_hybrid_header h r n ts = some buf ∧
      ∃ info, parse_hybrid_header buf = some info ∧
        dictGet info "SHA256".data [] = h ∧
        dictGet info "Path".data [] = r ∧
        dictGet info "Size".data [] = natDigits n ∧
        dictGet info "Offset".data [] = "200".data := by
  refine ⟨_, create_hybrid_header_eq_some h r ts n hfit, ?_⟩
  have hparse := parse_hybrid_header_padded h r ts n []
    (fun hm => hex_ne_newline '\n' (hhhex '\n' hm) rfl) hrn htsn hfit
  rw [List.append_nil] at hparse
  rw [pyStrip_eq_self_of_all h (fun c hc => hex_not_space c (hhhex c hc))] at hparse
  rw [pyStrip_eq_self_of_noEdge r hredge] at hparse
  exact ⟨_, hparse, rfl, rfl, rfl, rfl⟩

/-- C1 (amended): the round-trip holds for every payload within the
size bounds and every relative path that fits the header budget and
contains no newline character; `extract_binary_from_hybrid` then
reproduces the payload byte for byte. -/
theorem hybrid_roundtrip_no_newline (p : List Nat) (r ts : List Char)
    (hbytes : ∀ b ∈ p, b < 256)
    (hmin : 200 ≤ p.length)
    (hmax : p.length * 51 ≤ 10 * 1024 * 1024 * 50)
    (hrn : '\n' ∉ r) (htsn : '\n' ∉ ts)
    (hfit : (utf8Encode (header_text (sha256hex p) r p.length ts)).length <
      HYBRID_HEADER_SIZE) :
    ∃ container, convert_to_hybrid p r ts = some container ∧
      extract_binary_from_hybrid container = some p := by
  have hvalid : (validate_file_size (some p.length)).1 = true :=
    validate_file_size_true_of_bounds p.length hmin hmax
  refine ⟨_, convert_to_hybrid_eq_some p r ts _ hvalid
    (create_hybrid_header_eq_some (sha256hex p) r ts p.length hfit), ?_⟩
  have hparse := parse_hybrid_header_padded (sha256hex p) r ts p.length p
    (sha256hex_ne_newline p) hrn htsn hfit
  rw [pyStrip_eq_self_of_all (sha256hex p) (sha256hex_not_space p)] at hparse
  rw [extract_eq_of_parse _ _ hparse]
  rw [List.isEmpty_cons]
  rw [if_neg Bool.false_ne_true]
  have hdrop : ((utf8Encode (header_text (sha256hex p) r p.length ts) ++
      List.replicate
        (HYBRID_HEADER_SIZE -
          (utf8Encode (header_text (sha256hex p) r p.length ts)).length) 0) ++
      p).drop HYBRID_HEADER_SIZE = p := by
    refine List.drop_left' ?_
    rw [List.length_append, List.length_replicate]
    omega
  rw [hdrop]
  rw [if_neg (fun hne => hne rfl)]

/-! ## Remaining dictionary and line lemmas -/

theorem dictGet_not_hasKey (d : List (List Char × List Char)) (k dflt : List Char)
    (h : dictHasKey d k = false) : dictGet d k dflt = dflt := by
  induction d with
  | nil => rfl
  | cons e rest ih =>
    unfold dictHasKey at h
    rw [List.any_cons, Bool.or_eq_false_iff] at h
    rw [dictGet, if_neg (by simpa using h.1)]
    exact ih h.2

theorem breakColon_eq_spec (l : List Char) :
    breakColon l =
      if l.contains ':' then
        some (l.takeWhile (fun c => !(c == ':')),
          (l.dropWhile (fun c => !(c == ':'))).tail)
      else none := by
  induction l with
  | nil => rfl
  | cons c cs ih =>
    rw [breakColon]
    by_cases hc : c = ':'
    · subst hc
      rw [if_pos rfl, if_pos (by simp [List.contains_cons])]
      simp [List.takeWhile_cons, List.dropWhile_cons]
    · have hb : (c == ':') = false := by simp [hc]
      rw [if_neg hc, ih]
      by_cases hm : cs.contains ':'
      · rw [if_pos hm, if_pos (by
          simp only [List.contains_cons, Bool.or_eq_true, beq_iff_eq]
          exact Or.inr hm)]
        simp [List.takeWhile_cons, List.dropWhile_cons, hb]
      · rw [if_neg hm, if_neg (by
          simp only [List.contains_cons, Bool.or_eq_true, beq_iff_eq]
          rintro (h | h)
          · exact hc h.symm
          · exact hm h)]
        rfl

theorem lineField_eq_specLineField (l : List Char) :
    lineField l = specLineField l := by
  unfold lineField specLineField
  rw [breakColon_eq_spec]
  by_cases hm : l.contains ':'
  · rw [if_pos hm, if_pos hm]
  · rw [if_neg hm, if_neg hm]

theorem applyLine_eq_specApplyLine (info : List (List Char × List Char))
    (line : List Char) : applyLine info line = specApplyLine info line := by
  unfold applyLine specApplyLine
  rw [lineField_eq_specLineField]

theorem foldl_applyLine_eq_spec (ls : List (List Char)) :
    ∀ init, List.foldl applyLine init ls = List.foldl specApplyLine init ls := by
  induction ls with
  | nil => intro init; rfl
  | cons l ls ih =>
    intro init
    rw [List.foldl_cons, List.foldl_cons, applyLine_eq_specApplyLine, ih]

theorem buildHeaderInfo_eq_specHeaderMap (text : List Char) :
    buildHeaderInfo text = specHeaderMap text := by
  unfold buildHeaderInfo specHeaderMap
  exact foldl_applyLine_eq_spec (splitNl text) []

/-- C7: on every 200-byte buffer whose zero-stripped prefix decodes as
UTF-8, the header parser succeeds and returns exactly the map described
by the spec: split on newlines, split each line holding a `':'` at the
first `':'` into a whitespace-trimmed key and value, and ignore lines
without `':'` (they never cause a failure). -/
theorem parse_hybrid_header_decode_spec (buf : List Nat) (text : List Char)
    (hlen : buf.length = HYBRID_HEADER_SIZE)
    (hdec : utf8Decode (rstripZeros buf) = some text) :
    parse_hybrid_header buf = some (specHeaderMap text) := by
  have htake : buf.take HYBRID_HEADER_SIZE = buf := by
    rw [← hlen, List.take_length]
  unfold parse_hybrid_header
  rw [htake, hlen, if_neg (lt_irrefl HYBRID_HEADER_SIZE), hdec]
  show some (buildHeaderInfo text) = some (specHeaderMap text)
  rw [buildHeaderInfo_eq_specHeaderMap]

/-- C3: `create_hybrid_header` fails exactly when the UTF-8 encoding of
the six newline-joined header lines is at least 200 bytes; otherwise it
returns the encoded text right-padded with zero bytes to exactly 200
bytes, with the text kept whole (never truncated). -/
theorem create_hybrid_header_spec (h r ts : List Char) (n : Nat) :
    (create_hybrid_header h r n ts = none ↔
      HYBRID_HEADER_SIZE ≤ (utf8Encode (header_text h r n ts)).length) ∧
    ∀ buf, create_hybrid_header h r n ts = some buf →
      buf = utf8Encode (header_text h r n ts) ++
        List.replicate
          (HYBRID_HEADER_SIZE - (utf8Encode (header_text h r n ts)).length) 0 ∧
      buf.length = HYBRID_HEADER_SIZE ∧
      buf.take (utf8Encode (header_text h r n ts)).length =
        utf8Encode (header_text h r n ts) := by
  constructor
  · constructor
    · intro hn
      by_contra hlt
      rw [create_hybrid_header_eq_some h r ts n (by omega)] at hn
      cases hn
    · intro hge
      unfold create_hybrid_header
      rw [if_pos hge]
  · intro buf hbuf
    have hlt : (utf8Encode (header_text h r n ts)).length < HYBRID_HEADER_SIZE := by
      by_contra hge
      unfold create_hybrid_header at hbuf
      rw [if_pos (by omega)] at hbuf
      cases hbuf
    rw [create_hybrid_header_eq_some h r ts n hlt] at hbuf
    injection hbuf with hbuf
    refine ⟨hbuf.symm, ?_, ?_⟩
    · rw [← hbuf, List.length_append, List.length_replicate]
      omega
    · rw [← hbuf, List.take_left]

/-- C4: with `max_bytes = 10 MiB` and margin factor 1.02, a file of
size `s ≥ 200` is accepted exactly when `s * 1.02 ≤ max_bytes`. -/
theorem validate_file_size_margin_iff (s : Nat) (hs : 200 ≤ s) :
    (validate_file_size (some s)).1 = true ↔
      (s : ℚ) * 1.02 ≤ 10 * 1024 * 1024 := by
  have hrat : ((s : ℚ) * 1.02 ≤ 10 * 1024 * 1024) ↔
      s * 51 ≤ 10 * 1024 * 1024 * 50 := by
    constructor
    · intro h
      have h2 : (s : ℚ) * 51 ≤ 10 * 1024 * 1024 * 50 := by linarith
      exact_mod_cast h2
    · intro h
      have h2 : (s : ℚ) * 51 ≤ 10 * 1024 * 1024 * 50 := by exact_mod_cast h
      linarith
  rw [hrat]
  unfold validate_file_size
  dsimp only
  unfold MIN_FILE_SIZE HYBRID_HEADER_SIZE MAX_FILE_SIZE_MB
  rw [if_neg (by omega)]
  by_cases hc : s * 51 ≤ 10 * 1024 * 1024 * 50
  · rw [if_neg (by unfold sizeExceedsMargin; simp only [decide_eq_true_eq]; omega)]
    simpa using hc
  · rw [if_pos (by unfold sizeExceedsMargin; simp only [decide_eq_true_eq]; omega)]
    constructor
    · intro hfalse
      exact absurd hfalse (by decide)
    · intro hq
      exact absurd hq hc

/-- C5: a file of exactly 200 bytes passes the minimum-size check and is
accepted; a file of 199 bytes is rejected as too small. -/
theorem validate_file_size_boundary :
    validate_file_size (some 200) = (true, "") ∧
    validate_file_size (some 199) =
      (false, "規定サイズ以下のファイルは共有されません") := by
  constructor <;> rfl

/-- C6: a container shorter than the 200-byte header is rejected by
`parse_hybrid_header` (no field map is returned). -/
theorem parse_hybrid_header_truncated (dat : List Nat)
    (h : dat.length < HYBRID_HEADER_SIZE) : parse_hybrid_header dat = none := by
  unfold parse_hybrid_header
  rw [if_pos (by rw [List.length_take]; omega)]

/-- C8: when the decoded header map lacks a `SHA256` key, the expected
hash defaults to the empty string, which can never equal the recomputed
64-character digest, so extraction fails and nothing is written; the
recomputed digest always has 64 characters. -/
theorem extract_missing_sha256_fails (dat : List Nat)
    (info : List (List Char × List Char))
    (hp : parse_hybrid_header dat = some info)
    (hnk : dictHasKey info "SHA256".data = false) :
    extract_binary_from_hybrid dat = none ∧
    (sha256hex (dat.drop HYBRID_HEADER_SIZE)).length = 64 := by
  refine ⟨?_, sha256hex_length _⟩
  rw [extract_eq_of_parse dat info hp]
  cases info with
  | nil => rfl
  | cons e rest =>
    rw [List.isEmpty_cons, if_neg Bool.false_ne_true]
    rw [if_pos ?hne]
    case hne =>
      rw [dictGet_not_hasKey _ _ [] hnk]
      intro heq
      have hl := sha256hex_length (dat.drop HYBRID_HEADER_SIZE)
      rw [heq] at hl
      exact absurd hl (by decide)

/-- C10: `validate_file_size` is total: a failure to obtain the file
size (the `none` input, standing for the caught exception) yields a
rejection pair, never a crash, and acceptance can only happen when a
size was actually obtained. -/
theorem validate_file_size_total (sz : Option Nat) :
    (sz = none → validate_file_size sz = (false, "ファイルサイズ取得エラー")) ∧
    ((validate_file_size sz).1 = true → sz.isSome = true) := by
  constructor
  · intro h
    subst h
    rfl
  · intro h
    cases sz with
    | none => exact absurd h (by decide)
    | some n => rfl

/-- Any payload change that alters the SHA-256 digest is rejected by
the reader: the header region, which is unchanged, fixes the expected
digest, and the digest mismatch yields a failure with no write.  The
unconditional single-byte tamper-detection property would additionally
need that no single-byte flip preserves the digest (collision freeness
of SHA-256 on such neighbours), which is not settled here. -/
theorem extract_rejects_digest_change (hdr p p2 : List Nat)
    (info : List (List Char × List Char))
    (hlen : hdr.length = HYBRID_HEADER_SIZE)
    (hp : parse_hybrid_header (hdr ++ p) = some info)
    (hne : sha256hex p2 ≠ dictGet info "SHA256".data []) :
    extract_binary_from_hybrid (hdr ++ p2) = none := by
  have hsame : parse_hybrid_header (hdr ++ p2) = some info := by
    unfold parse_hybrid_header at hp ⊢
    rw [List.take_left' hlen] at hp ⊢
    exact hp
  rw [extract_eq_of_parse _ _ hsame]
  cases info with
  | nil => rfl
  | cons x rest =>
    rw [List.isEmpty_cons, if_neg Bool.false_ne_true]
    rw [List.drop_left' hlen]
    rw [if_pos hne]

/-! ## Concrete instances -/

set_option maxRecDepth 10000 in
theorem hybrid_roundtrip_no_newline_witness :
    (convert_to_hybrid (List.replicate 200 0) "img.png".data
      "2024-01-15T10:30:00Z".data).bind extract_binary_from_hybrid =
      some (List.replicate 200 0) := by
  obtain ⟨c, hc, he⟩ := hybrid_roundtrip_no_newline (List.replicate 200 0)
    "img.png".data "2024-01-15T10:30:00Z".data (by decide) (by decide)
    (by decide) (by decide) (by decide) (by decide)
  rw [hc]
  exact he

set_option maxRecDepth 40000 in
theorem hybrid_roundtrip_newline_injection_cex :
    200 ≤ (List.replicate 200 0 : List Nat).length ∧
    (List.replicate 200 0 : List Nat).length * 51 ≤ 10 * 1024 * 1024 * 50 ∧
    (utf8Encode (header_text (sha256hex (List.replicate 200 0))
      "\nSHA256:0".data (List.replicate 200 0 : List Nat).length
      "2024-01-15T10:30:00Z".data)).length < HYBRID_HEADER_SIZE ∧
    (convert_to_hybrid (List.replicate 200 0) "\nSHA256:0".data
      "2024-01-15T10:30:00Z".data).isSome = true ∧
    (convert_to_hybrid (List.replicate 200 0) "\nSHA256:0".data
      "2024-01-15T10:30:00Z".data).bind extract_binary_from_hybrid = none :=
  ⟨by decide, by decide, by decide, by decide, by decide⟩

set_option maxRecDepth 10000 in
theorem hybrid_header_roundtrip_witness :
    ((create_hybrid_header (List.replicate 64 'a') "photos/cat.jpg".data
        48213 "2024-01-15T10:30:00Z".data).bind parse_hybrid_header).map
      (fun info =>
        (dictGet info "SHA256".data [], dictGet info "Path".data [],
         dictGet info "Size".data [], dictGet info "Offset".data [])) =
      some (List.replicate 64 'a', "photos/cat.jpg".data, natDigits 48213,
        "200".data) := by
  obtain ⟨buf, hbuf, info, hinfo, e1, e2, e3, e4⟩ :=
    hybrid_header_roundtrip (List.replicate 64 'a') "photos/cat.jpg".data
      "2024-01-15T10:30:00Z".data 48213 (by decide) (by decide) (by decide)
      (by decide) (by decide) (by decide) (by decide)
  rw [hbuf]
  show (parse_hybrid_header buf).map _ = _
  rw [hinfo]
  show some (dictGet info "SHA256".data [], dictGet info "Path".data [],
    dictGet info "Size".data [], dictGet info "Offset".data []) = _
  rw [e1, e2, e3, e4]

theorem create_hybrid_header_spec_witness :
    (create_hybrid_header "abc".data "p.jpg".data 5
      "2024-01-15T10:30:00Z".data).map List.length =
      some HYBRID_HEADER_SIZE := by
  have hbuf := create_hybrid_header_eq_some "abc".data "p.jpg".data
    "2024-01-15T10:30:00Z".data 5 (by decide)
  rw [hbuf, Option.map_some']
  rw [((create_hybrid_header_spec "abc".data "p.jpg".data
    "2024-01-15T10:30:00Z".data 5).2 _ hbuf).2.1]

theorem validate_file_size_margin_iff_witness :
    (validate_file_size (some 10280156)).1 = true ∧
    ¬ (validate_file_size (some 10280157)).1 = true := by
  constructor
  · exact (validate_file_size_margin_iff 10280156 (by norm_num)).mpr
      (by norm_num)
  · intro h
    have hq := (validate_file_size_margin_iff 10280157 (by norm_num)).mp h
    norm_num at hq

theorem parse_hybrid_header_truncated_witness :
    parse_hybrid_header [] = none :=
  parse_hybrid_header_truncated [] (by decide)

set_option maxRecDepth 10000 in
theorem parse_hybrid_header_decode_spec_witness :
    parse_hybrid_header (utf8Encode "A: b\nplain".data ++
        List.replicate 190 0) =
      some (specHeaderMap "A: b\nplain".data) :=
  parse_hybrid_header_decode_spec
    (utf8Encode "A: b\nplain".data ++ List.replicate 190 0)
    "A: b\nplain".data (by decide) (by decide)

set_option maxRecDepth 10000 in
theorem extract_missing_sha256_fails_witness :
    extract_binary_from_hybrid (List.replicate 400 0) = none ∧
    (sha256hex ((List.replicate 400 0 : List Nat).drop
      HYBRID_HEADER_SIZE)).length = 64 :=
  extract_missing_sha256_fails (List.replicate 400 0) [] (by decide)
    (by decide)

theorem validate_file_size_total_witness :
    validate_file_size none = (false, "ファイルサイズ取得エラー") ∧
    (some 500 : Option Nat).isSome = true :=
  ⟨(validate_file_size_total none).1 rfl,
   (validate_file_size_total (some 500)).2 (by decide)⟩
